import Mathlib

/-!
Shallow embedding of the JonSnow review pipeline (src/main.go) and proofs
about it.  Go strings are modelled as Lean `String`/`List Char` (rune
sequences), Go `time.Time` values as their Unix-seconds `Int`, the SQL
store as an in-memory list of rows, and the fallible database as a pair
of failure oracles.  External I/O (HTTP fetch, webhook POST, yaml file
reading) is cut at its interface boundary; the logic between those
boundaries is translated statement by statement from the source.
-/

namespace JonSnow

/-! ## Go string primitives (models of the `strings` package functions used) -/

/-- Decides whether the rune list `t` is a leading segment of `s`
(model of the prefix test inside Go `strings.Index`). -/
def beginsWith : List Char → List Char → Bool
  | [], _ => true
  | _ :: _, [] => false
  | a :: ts, b :: ss => a == b && beginsWith ts ss

/-- Model of Go `strings.Index s t`: rune index of the first occurrence of
`t` inside `s`, `none` when `t` does not occur. -/
def firstOcc : List Char → List Char → Option Nat
  | [], t => if beginsWith t [] then some 0 else none
  | c :: s', t =>
    if beginsWith t (c :: s') then some 0
    else (firstOcc s' t).map (· + 1)

/-- Model of Go `strings.Contains`. -/
def stringsContains (s sub : String) : Bool :=
  (firstOcc s.data sub.data).isSome

/-- Model of Go `strings.Repeat`. -/
def stringsRepeat (s : String) (n : Nat) : String :=
  String.join (List.replicate n s)

/-- Split around each leftmost non-overlapping occurrence of `t` (intended
for non-empty `t`).  The fuel only bounds the recursion: since every found
occurrence of a non-empty separator consumes at least one rune, a fuel
exceeding `s.length` is never exhausted. -/
def goSplitAux : Nat → List Char → List Char → List (List Char)
  | 0, s, _ => [s]
  | fuel + 1, s, t =>
    match firstOcc s t with
    | none => [s]
    | some i => s.take i :: goSplitAux fuel (s.drop (i + t.length)) t

/-- Model of Go `strings.Split`: with an empty separator the string explodes
into its individual runes (an empty string explodes to the empty slice). -/
def goSplit (s sep : String) : List String :=
  if sep.data = [] then s.data.map (fun c => String.mk [c])
  else (goSplitAux (s.data.length + 1) s.data sep.data).map String.mk

/-- Model of the expression `strings.Split(s, sep)[0]` in `GetReview`:
`none` models the index-out-of-range panic on an empty slice. -/
def splitIndexZero (s sep : String) : Option String :=
  (goSplit s sep).head?

theorem string_data_eq_nil_iff (s : String) : s.data = [] ↔ s = "" := by
  constructor
  · intro h
    exact String.ext (h.trans rfl)
  · intro h
    rw [h]

/-! ## RatingDecoder (`parseRate`, src/main.go lines 281-298) -/

def RATING_EMOJI : String := ":star:"

def RATING_EMOJI_2 : String := ":star2:"

/-- Translation of `parseRate`: a `switch` whose cases are tried top to
bottom, defaulting to the empty string. -/
def parseRate (message : String) : String :=
  if stringsContains message "width: 20%" then stringsRepeat RATING_EMOJI 1
  else if stringsContains message "width: 40%" then stringsRepeat RATING_EMOJI 2
  else if stringsContains message "width: 60%" then stringsRepeat RATING_EMOJI 3
  else if stringsContains message "width: 80%" then stringsRepeat RATING_EMOJI 4
  else if stringsContains message "width: 100%" then stringsRepeat RATING_EMOJI_2 5
  else ""

/-! ## Go `time` package model

Only what `GetReview` uses is modelled: `time.Parse` restricted to the
three layout strings that can reach it (`"2006年1月2日"`, `"January 2, 2006"`
and the empty layout produced by an unrecognized locale), `Time.Unix`
(a parsed date is carried directly as its Unix seconds), and
`Time.Format("2006-01-02")`. -/

/-- Days since 1970-01-01 of the civil date `y-m-d` (proleptic Gregorian).
`Int` division in Lean is floor division for positive divisors, as the
algorithm requires. -/
def daysFromCivil (y : Int) (m d : Nat) : Int :=
  let y' : Int := if m ≤ 2 then y - 1 else y
  let era : Int := y' / 400
  let yoe : Int := y' - era * 400
  let mp : Int := if 2 < m then (m : Int) - 3 else (m : Int) + 9
  let doy : Int := (153 * mp + 2) / 5 + (d : Int) - 1
  let doe : Int := yoe * 365 + yoe / 4 - yoe / 100 + doy
  era * 146097 + doe - 719468

/-- Inverse of `daysFromCivil`: the civil date of a day count. -/
def civilFromDays (z0 : Int) : Int × Nat × Nat :=
  let z := z0 + 719468
  let era : Int := z / 146097
  let doe : Int := z - era * 146097
  let yoe : Int := (doe - doe / 1460 + doe / 36524 - doe / 146097) / 365
  let y : Int := yoe + era * 400
  let doy : Int := doe - (365 * yoe + yoe / 4 - yoe / 100)
  let mp : Int := (5 * doy + 2) / 153
  let d : Int := doy - (153 * mp + 2) / 5 + 1
  let m : Int := if mp < 10 then mp + 3 else mp - 9
  (if m ≤ 2 then y + 1 else y, m.toNat, d.toNat)

def isDigitChar (c : Char) : Bool := '0' ≤ c && c ≤ '9'

def digitVal (c : Char) : Nat := c.toNat - '0'.toNat

/-- Go layout token `2006` (`stdLongYear`): exactly four digits. -/
def parseYear4 : List Char → Option (Nat × List Char)
  | a :: b :: c :: d :: rest =>
    if isDigitChar a && isDigitChar b && isDigitChar c && isDigitChar d then
      some ((((digitVal a * 10 + digitVal b) * 10 + digitVal c) * 10 + digitVal d), rest)
    else none
  | _ => none

/-- Go `getnum` with `fixed = false` (layout tokens `1` and `2`):
one digit, or two when the second rune is also a digit. -/
def parseNum2 : List Char → Option (Nat × List Char)
  | [] => none
  | a :: rest =>
    if isDigitChar a then
      match rest with
      | b :: rest' =>
        if isDigitChar b then some (digitVal a * 10 + digitVal b, rest')
        else some (digitVal a, b :: rest')
      | [] => some (digitVal a, [])
    else none

def cutSpace : List Char → List Char
  | [] => []
  | c :: rest => if c = ' ' then cutSpace rest else c :: rest

theorem cutSpace_length_le (l : List Char) : (cutSpace l).length ≤ l.length := by
  induction l with
  | nil => exact Nat.le_refl _
  | cons c rest ih =>
    simp only [cutSpace]
    split
    · exact Nat.le_succ_of_le ih
    · exact Nat.le_refl _

/-- Go `skip(value, lit)` with explicit fuel: every recursive call strictly
shortens `lit` (by `cutSpace_length_le`), so a fuel of at least
`lit.length` never runs out. -/
def skipLitAux : Nat → List Char → List Char → Option (List Char)
  | _, value, [] => some value
  | 0, _, _ :: _ => none
  | fuel + 1, value, p :: ps =>
    if p = ' ' then
      match value with
      | v :: _ =>
        if v = ' ' then skipLitAux fuel (cutSpace value) (cutSpace ps) else none
      | [] => skipLitAux fuel [] (cutSpace ps)
    else
      match value with
      | v :: vs => if v = p then skipLitAux fuel vs ps else none
      | [] => none

/-- Go `skip(value, lit)`: consume the literal layout fragment `lit` from
`value`; a space in the layout matches a run of spaces in the value. -/
def skipLit (value lit : List Char) : Option (List Char) :=
  skipLitAux lit.length value lit

def foldLower (c : Char) : Char :=
  if 'A' ≤ c && c ≤ 'Z' then Char.ofNat (c.toNat + 32) else c

/-- Go `match` (case-insensitive ASCII comparison of one rune). -/
def goCharMatch (c1 c2 : Char) : Bool :=
  c1 == c2 ||
    (foldLower c1 == foldLower c2 && 'a' ≤ foldLower c1 && foldLower c1 ≤ 'z')

def goStrMatch : List Char → List Char → Bool
  | [], [] => true
  | a :: as, b :: bs => goCharMatch a b && goStrMatch as bs
  | _, _ => false

def longMonthNames : List String :=
  ["January", "February", "March", "April", "May", "June", "July",
   "August", "September", "October", "November", "December"]

/-- Go `lookup(longMonthNames, value)` for the `January` layout token:
first table entry that case-insensitively leads `value`; yields the month
number (1-12) and the remaining value. -/
def lookupMonthAux : Nat → List String → List Char → Option (Nat × List Char)
  | _, [], _ => none
  | i, n :: ns, value =>
    if n.data.length ≤ value.length && goStrMatch (value.take n.data.length) n.data then
      some (i + 1, value.drop n.data.length)
    else lookupMonthAux (i + 1) ns value

def lookupMonth (value : List Char) : Option (Nat × List Char) :=
  lookupMonthAux 0 longMonthNames value

def isLeap (y : Int) : Bool := y % 4 == 0 && (y % 100 != 0 || y % 400 == 0)

/-- Go `daysIn(month, year)`. -/
def daysInMonth (m : Nat) (y : Int) : Nat :=
  if m = 2 then (if isLeap y then 29 else 28)
  else if m = 4 ∨ m = 6 ∨ m = 9 ∨ m = 11 then 30
  else 31

/-- `time.Parse("2006年1月2日", value)`: four-digit year, literal rune,
1-2 digit month, literal rune, 1-2 digit day, literal rune, end of input;
month and day-of-month ranges are validated as in Go. -/
def parseDateZhTw (value : List Char) : Option (Int × Nat × Nat) := do
  let (y, v1) ← parseYear4 value
  let v2 ← skipLit v1 ['年']
  let (m, v3) ← parseNum2 v2
  if m < 1 ∨ 12 < m then none
  let v4 ← skipLit v3 ['月']
  let (d, v5) ← parseNum2 v4
  let v6 ← skipLit v5 ['日']
  if v6 ≠ [] then none
  if d < 1 ∨ daysInMonth m (y : Int) < d then none
  return ((y : Int), m, d)

/-- `time.Parse("January 2, 2006", value)`: English month name
(case-insensitive), spaces, 1-2 digit day, literal comma-space,
four-digit year, end of input; day-of-month range validated as in Go. -/
def parseDateEn (value : List Char) : Option (Int × Nat × Nat) := do
  let (m, v1) ← lookupMonth value
  let v2 ← skipLit v1 [' ']
  let (d, v3) ← parseNum2 v2
  let v4 ← skipLit v3 [',', ' ']
  let (y, v5) ← parseYear4 v4
  if v5 ≠ [] then none
  if d < 1 ∨ daysInMonth m (y : Int) < d then none
  return ((y : Int), m, d)

/-- `time.Parse(layout, value)` restricted to the three layouts reachable in
`GetReview`, yielding the civil date.  Under the empty layout (selected for
an unrecognized locale) Go accepts exactly the empty value and defaults the
unset fields, producing the date 0000-01-01. -/
def goTimeParseYMD (layout value : String) : Option (Int × Nat × Nat) :=
  if layout = "2006年1月2日" then parseDateZhTw value.data
  else if layout = "January 2, 2006" then parseDateEn value.data
  else if layout = "" then (if value = "" then some (0, 1, 1) else none)
  else none

/-- `time.Parse` followed by `Time.Unix()`: the parsed midnight timestamp in
Unix seconds (parsing without a zone yields UTC). -/
def goTimeParseUnix (layout value : String) : Option Int :=
  (goTimeParseYMD layout value).map (fun t => 86400 * daysFromCivil t.1 t.2.1 t.2.2)

def padZero (width : Nat) (s : String) : String :=
  String.mk (List.replicate (width - s.length) '0') ++ s

/-- `Time.Format("2006-01-02")` applied to a midnight Unix timestamp. -/
def goFormatDate (unix : Int) : String :=
  let c := civilFromDays (unix / 86400)
  let ys := if c.1 < 0 then "-" ++ padZero 4 (toString (-c.1).toNat) else padZero 4 (toString c.1.toNat)
  ys ++ "-" ++ padZero 2 (toString c.2.1) ++ "-" ++ padZero 2 (toString c.2.2)

/-! ## Data model (src/main.go lines 22-87) -/

structure Config where
  AppId : String
  ReviewCount : Int
  BotName : String
  IconEmoji : String
  MessageText : String
  WebHookUri : String
  Location : String
deriving DecidableEq, Repr

structure Review where
  Id : Int := 0
  Author : String
  Title : String
  Message : String
  Rate : String
  UpdatedAt : Int
  Permalink : String
  Color : String := ""
deriving DecidableEq, Repr

structure SlackAttachmentField where
  Title : String
  Value : String
  Short : Bool
deriving DecidableEq, Repr

structure SlackAttachment where
  Author : String := ""
  AuthorLink : String := ""
  Title : String
  TitleLink : String
  Text : String
  Fallback : String
  Color : String
  Fields : List SlackAttachmentField
deriving DecidableEq, Repr

structure SlackPayload where
  Text : String
  UserName : String
  IconEmoji : String
  Attachments : List SlackAttachment
deriving DecidableEq, Repr

def BASE_URI : String := "https://play.google.com"

/-- One row of the `review` table: the identity record the dedup pass
persists.  The serial `id` column is left implicit (rows present in the
store are exactly the rows whose lookup succeeds). -/
structure StoreRec where
  author : String
  comment_uri : String
  updated_at : Int
deriving DecidableEq, Repr

/-! ## ReviewParser (`GetReview`, src/main.go lines 217-279)

The goquery document traversal is cut at its boundary: a `ReviewBlock`
carries the text/attribute of each sub-node that the `Each` callback
reads (a missing attribute is `none`; a missing node yields the empty
text, as `goquery.Selection.Text()` does). -/

structure ReviewBlock where
  authorText : String
  dateText : String
  permalinkHref : Option String
  titleText : String
  bodyText : String
  linkText : String
  rateStyle : Option String
deriving DecidableEq, Repr

/-- The `timeForm` selection in the `Each` callback: `var timeForm string`
stays the empty string for any locale other than `zh-tw` and `en`. -/
def timeFormFor (location : String) : String :=
  if location = "zh-tw" then "2006年1月2日"
  else if location = "en" then "January 2, 2006"
  else ""

/-- Result of the `Each` callback on one block: an early `return` after a
failed date parse skips the block; `strings.Split(...)[0]` on an empty
slice panics and crashes the run; otherwise a `Review` is appended. -/
inductive BlockOutcome where
  | skip
  | panicked
  | emit (r : Review)
deriving DecidableEq, Repr

/-- Translation of the body of the `Each` callback in `GetReview`. -/
def getReviewBlock (location : String) (s : ReviewBlock) : BlockOutcome :=
  match goTimeParseUnix (timeFormFor location) s.dateText with
  | none => .skip
  | some date =>
    let reviewPermalink := s.permalinkHref.getD ""
    let reviewTitle := if s.titleText = "" then "No title provided" else s.titleText
    match splitIndexZero s.bodyText s.linkText with
    | none => .panicked
    | some reviewMessage =>
      .emit { Author := s.authorText, Title := reviewTitle,
              Message := reviewMessage,
              Rate := parseRate (s.rateStyle.getD ""),
              UpdatedAt := date, Permalink := reviewPermalink }

/-- The review accumulation of `GetReview` over the document's blocks,
before sorting.  `Except.error ()` models the run crashing on a panic
inside the callback. -/
def GetReview (location : String) : List ReviewBlock → Except Unit (List Review)
  | [] => .ok []
  | b :: bs =>
    match getReviewBlock location b with
    | .skip => GetReview location bs
    | .panicked => .error ()
    | .emit r =>
      match GetReview location bs with
      | .ok rs => .ok (r :: rs)
      | .error e => .error e

/-! ## ReviewOrdering (`sort.Sort` with `Reviews.Less`, lines 276 and 388-398)

`Reviews.Less i j` is `r[i].UpdatedAt.Unix() > r[j].UpdatedAt.Unix()`, so
`sort.Sort` contracts to produce a permutation of the input that is
sorted descending by the Unix timestamp.  `sort.Sort`'s unspecified
unstable algorithm is modelled by a concrete sort satisfying exactly
that contract. -/

/-- The (non-strict) order in which `sort.Sort` leaves the slice:
`reviewGE a b` holds when `a` may come before `b`. -/
def reviewGE (a b : Review) : Prop := b.UpdatedAt ≤ a.UpdatedAt

instance : DecidableRel reviewGE :=
  fun a b => inferInstanceAs (Decidable (b.UpdatedAt ≤ a.UpdatedAt))

instance : IsTotal Review reviewGE :=
  ⟨fun a b => (Int.le_total b.UpdatedAt a.UpdatedAt).imp id id⟩

instance : IsTrans Review reviewGE :=
  ⟨fun _ _ _ hab hbc => Int.le_trans hbc hab⟩

/-- Model of `sort.Sort(reviews)` in `GetReview`. -/
def sortReviews (rs : List Review) : List Review :=
  List.insertionSort reviewGE rs

/-- `GetReview` including its final `sort.Sort` call. -/
def GetReviewSorted (location : String) (blocks : List ReviewBlock) :
    Except Unit (List Review) :=
  (GetReview location blocks).map sortReviews

/-! ## DeduplicationStore (`SaveReviews`, src/main.go lines 300-325)

The database is modelled as the list of persisted rows plus two failure
oracles: `lerr k` (`ierr k`) says that the lookup (insert) issued for the
`k`-th candidate fails with a database error.  A lookup that merely finds
no row is not a failure: the code treats `sql: no rows in result set` as
`id = 0` and proceeds to insert. -/

def lookupStore (store : List StoreRec) (permalink : String) : Option StoreRec :=
  store.find? (fun rec => rec.comment_uri == permalink)

/-- The identity record `INSERT INTO review (author, comment_uri, updated_at)`
persists for a new review. -/
def identRec (r : Review) : StoreRec :=
  { author := r.Author, comment_uri := r.Permalink, updated_at := r.UpdatedAt }

/-- Translation of `SaveReviews` against the fallible store: returns the
final store contents and either the filtered reviews or the propagated
error.  Candidates are processed strictly in order; the first failing
lookup or insert aborts the whole call. -/
def SaveReviewsDB (lerr ierr : Nat → Bool) :
    Nat → List StoreRec → List Review → List StoreRec × Except Unit (List Review)
  | _, store, [] => (store, .ok [])
  | k, store, review :: rest =>
    if lerr k then (store, .error ())
    else
      match lookupStore store review.Permalink with
      | some _ => SaveReviewsDB lerr ierr (k + 1) store rest
      | none =>
        if ierr k then (store, .error ())
        else
          match SaveReviewsDB lerr ierr (k + 1) (store ++ [identRec review]) rest with
          | (store', .ok out) => (store', .ok (review :: out))
          | (store', .error e) => (store', .error e)

/-- `SaveReviews` on a store whose lookups and inserts all succeed. -/
def SaveReviews (store : List StoreRec) (reviews : List Review) :
    List StoreRec × Except Unit (List Review) :=
  SaveReviewsDB (fun _ => false) (fun _ => false) 0 store reviews

/-! ## NotificationFormatter (`PostReview`, src/main.go lines 327-386)

The outbound HTTP POST is external I/O; the formatter is modelled up to
the payload it marshals.  `none` models the early `return nil` on an
empty review list: no payload is built and no delivery happens, with a
success result. -/

/-- One loop iteration of `PostReview`: the attachment built for a review. -/
def mkAttachment (review : Review) : SlackAttachment :=
  { Title := review.Author,
    TitleLink := BASE_URI ++ review.Permalink,
    Text := review.Message,
    Fallback := review.Message ++ " " ++ review.Author,
    Color := review.Color,
    Fields := [{ Title := "Rating", Value := review.Rate, Short := true },
               { Title := "UpdatedAt", Value := goFormatDate review.UpdatedAt, Short := true }] }

/-- Translation of `PostReview`: the loop `break`s at index
`config.ReviewCount`, so exactly the first `ReviewCount` reviews are
formatted. -/
def PostReview (config : Config) (reviews : List Review) : Option SlackPayload :=
  if 1 > reviews.length then none
  else some
    { Text := config.MessageText,
      UserName := config.BotName,
      IconEmoji := config.IconEmoji,
      Attachments := (reviews.take config.ReviewCount.toNat).map mkAttachment }

/-! ## Configuration overrides (`NewConfig`, src/main.go lines 145-167)

File reading, database opening and the existence probe of the app page
are external I/O.  The environment is modelled as Go's `os.Getenv`: a
total function returning the empty string for an unset variable. -/

/-- Translation of the four environment-override blocks in `NewConfig`. -/
def applyEnvOverrides (env : String → String) (config : Config) : Config :=
  let c1 := if env "JON_SNOW_BOT_NAME" ≠ "" then
    { config with BotName := env "JON_SNOW_BOT_NAME" } else config
  let c2 := if env "JON_SNOW_APP_ID" ≠ "" then
    { c1 with AppId := env "JON_SNOW_APP_ID" } else c1
  let c3 := if env "JON_SNOW_SLACK_HOOK" ≠ "" then
    { c2 with WebHookUri := env "JON_SNOW_SLACK_HOOK" } else c2
  if env "JON_SNOW_LOCATION" ≠ "" then
    { c3 with Location := env "JON_SNOW_LOCATION" } else c3

/-! ## Shared concrete inputs for witnesses and counterexamples -/

/-- A concrete review with the given timestamp and permalink. -/
def sampleReview (n : Int) (p : String) : Review :=
  { Author := "author", Title := "title", Message := "message", Rate := "",
    UpdatedAt := n, Permalink := p }

/-! ## Claim C3 (parseRate) -/

/-- Claim C3 counterexample: the five `Contains` cases are tried in `switch`
order, so a style string containing both the 20% and the 40% token decodes
to one star, not to the two stars the claim assigns to every string
containing the 40% token. -/
theorem parseRate_priority_counterexample :
    stringsContains "width: 20% width: 40%" "width: 40%" = true ∧
    parseRate "width: 20% width: 40%" = ":star:" ∧
    (":star:" : String) ≠ ":star::star:" :=
  ⟨by decide, by decide, by decide⟩

/-- Claim C3 (amended): `parseRate` maps a style string to the star count of
the FIRST of the five width tokens (in the order 20%, 40%, 60%, 80%, 100%)
that it contains — in particular each token alone yields its fixed glyph
count, with the distinct `:star2:` glyph for 100% — and any string
containing none of the five tokens yields the empty rating. -/
theorem parseRate_cases (s : String) :
    (stringsContains s "width: 20%" = true → parseRate s = ":star:") ∧
    (stringsContains s "width: 20%" = false → stringsContains s "width: 40%" = true →
      parseRate s = ":star::star:") ∧
    (stringsContains s "width: 20%" = false → stringsContains s "width: 40%" = false →
      stringsContains s "width: 60%" = true → parseRate s = ":star::star::star:") ∧
    (stringsContains s "width: 20%" = false → stringsContains s "width: 40%" = false →
      stringsContains s "width: 60%" = false → stringsContains s "width: 80%" = true →
      parseRate s = ":star::star::star::star:") ∧
    (stringsContains s "width: 20%" = false → stringsContains s "width: 40%" = false →
      stringsContains s "width: 60%" = false → stringsContains s "width: 80%" = false →
      stringsContains s "width: 100%" = true →
      parseRate s = ":star2::star2::star2::star2::star2:") ∧
    (stringsContains s "width: 20%" = false → stringsContains s "width: 40%" = false →
      stringsContains s "width: 60%" = false → stringsContains s "width: 80%" = false →
      stringsContains s "width: 100%" = false → parseRate s = "") := by
  refine ⟨?_, ?_, ?_, ?_, ?_, ?_⟩
  · intro h1
    simp only [parseRate, h1, if_true]
    decide
  · intro h1 h2
    simp only [parseRate, h1, h2, if_true, if_false]
    decide
  · intro h1 h2 h3
    simp only [parseRate, h1, h2, h3, if_true, if_false]
    decide
  · intro h1 h2 h3 h4
    simp only [parseRate, h1, h2, h3, h4, if_true, if_false]
    decide
  · intro h1 h2 h3 h4 h5
    simp only [parseRate, h1, h2, h3, h4, h5, if_true, if_false]
    decide
  · intro h1 h2 h3 h4 h5
    simp [parseRate, h1, h2, h3, h4, h5]

/-- Witness for `parseRate_cases` at the token `"width: 60%"` itself. -/
theorem parseRate_cases_witness :
    stringsContains "width: 60%" "width: 20%" = false ∧
    stringsContains "width: 60%" "width: 40%" = false ∧
    stringsContains "width: 60%" "width: 60%" = true ∧
    parseRate "width: 60%" = ":star::star::star:" :=
  ⟨by decide, by decide, by decide,
   (parseRate_cases "width: 60%").2.2.1 (by decide) (by decide) (by decide)⟩

/-! ## Claim C8 (configuration environment overrides) -/

/-- A concrete file-provided configuration. -/
def cfgFileC8 : Config :=
  { AppId := "com.example.app", ReviewCount := 7, BotName := "jon",
    IconEmoji := ":ghost:", MessageText := "hello", WebHookUri := "https://hook",
    Location := "en" }

/-- Claim C8 counterexample: even with every environment variable set (to
`"FROMENV"`), the review count, icon identifier and message text keep their
file-provided values — those three options have no environment override in
`NewConfig`. -/
theorem envOverride_missing_counterexample :
    (applyEnvOverrides (fun _ => "FROMENV") cfgFileC8).ReviewCount = 7 ∧
    (applyEnvOverrides (fun _ => "FROMENV") cfgFileC8).IconEmoji = ":ghost:" ∧
    (applyEnvOverrides (fun _ => "FROMENV") cfgFileC8).MessageText = "hello" ∧
    (":ghost:" : String) ≠ "FROMENV" :=
  ⟨by decide, by decide, by decide, by decide⟩

/-- Claim C8 (amended): only the application id, bot display name, webhook
URI and locale code are overridable, by `JON_SNOW_APP_ID`,
`JON_SNOW_BOT_NAME`, `JON_SNOW_SLACK_HOOK` and `JON_SNOW_LOCATION`
respectively, a non-empty environment value taking precedence; the review
count, icon identifier and message text always keep the file-provided
value. -/
theorem applyEnvOverrides_spec (env : String → String) (c : Config) :
    (applyEnvOverrides env c).AppId =
      (if env "JON_SNOW_APP_ID" ≠ "" then env "JON_SNOW_APP_ID" else c.AppId) ∧
    (applyEnvOverrides env c).BotName =
      (if env "JON_SNOW_BOT_NAME" ≠ "" then env "JON_SNOW_BOT_NAME" else c.BotName) ∧
    (applyEnvOverrides env c).WebHookUri =
      (if env "JON_SNOW_SLACK_HOOK" ≠ "" then env "JON_SNOW_SLACK_HOOK" else c.WebHookUri) ∧
    (applyEnvOverrides env c).Location =
      (if env "JON_SNOW_LOCATION" ≠ "" then env "JON_SNOW_LOCATION" else c.Location) ∧
    (applyEnvOverrides env c).ReviewCount = c.ReviewCount ∧
    (applyEnvOverrides env c).IconEmoji = c.IconEmoji ∧
    (applyEnvOverrides env c).MessageText = c.MessageText := by
  unfold applyEnvOverrides
  split_ifs <;> simp_all

/-! ## Claim C6 (PostReview capping and empty no-op) -/

/-- Claim C6: `PostReview` keeps at most `ReviewCount` reviews from the
front of the input; with `ReviewCount = 2` and five reviews the payload
carries exactly the attachments of the first two; on an empty input no
payload is produced (the function returns success without delivering);
and in general a non-empty input yields the payload of its first
`ReviewCount` reviews. -/
theorem PostReview_caps (config : Config) (reviews : List Review)
    (hc : config.ReviewCount = 2) (hlen : reviews.length = 5) :
    PostReview config reviews =
      some { Text := config.MessageText, UserName := config.BotName,
             IconEmoji := config.IconEmoji,
             Attachments := (reviews.take 2).map mkAttachment } ∧
    ((reviews.take 2).map mkAttachment).length = 2 ∧
    PostReview config [] = none ∧
    (∀ rs : List Review, rs ≠ [] → PostReview config rs =
      some { Text := config.MessageText, UserName := config.BotName,
             IconEmoji := config.IconEmoji,
             Attachments := (rs.take config.ReviewCount.toNat).map mkAttachment }) := by
  refine ⟨?_, ?_, ?_, ?_⟩
  · simp [PostReview, hlen, hc]
  · simp [hlen]
  · simp [PostReview]
  · intro rs hrs
    have : ¬ (1 > rs.length) := by
      have := List.length_pos.mpr hrs
      omega
    simp [PostReview, this]

/-- Five concrete reviews for the `PostReview` witness. -/
def revsC6 : List Review :=
  [sampleReview 50 "/r/50", sampleReview 40 "/r/40", sampleReview 30 "/r/30",
   sampleReview 20 "/r/20", sampleReview 10 "/r/10"]

/-- A concrete configuration with `ReviewCount = 2`. -/
def cfgC6 : Config :=
  { AppId := "com.example.app", ReviewCount := 2, BotName := "jon",
    IconEmoji := ":ghost:", MessageText := "new reviews", WebHookUri := "https://hook",
    Location := "en" }

/-- Witness for `PostReview_caps` at a concrete configuration and five
concrete reviews. -/
theorem PostReview_caps_witness :
    cfgC6.ReviewCount = 2 ∧ revsC6.length = 5 ∧
    (PostReview cfgC6 revsC6 =
       some { Text := cfgC6.MessageText, UserName := cfgC6.BotName,
              IconEmoji := cfgC6.IconEmoji,
              Attachments := (revsC6.take 2).map mkAttachment } ∧
     ((revsC6.take 2).map mkAttachment).length = 2 ∧
     PostReview cfgC6 [] = none ∧
     (∀ rs : List Review, rs ≠ [] → PostReview cfgC6 rs =
       some { Text := cfgC6.MessageText, UserName := cfgC6.BotName,
              IconEmoji := cfgC6.IconEmoji,
              Attachments := (rs.take cfgC6.ReviewCount.toNat).map mkAttachment })) :=
  ⟨by decide, by decide, PostReview_caps cfgC6 revsC6 (by decide) (by decide)⟩

/-! ## Claims C2 and C9 (message extraction via `strings.Split(...)[0]`) -/

theorem string_mk_data (s : String) : String.mk s.data = s := by
  cases s
  rfl

/-- Modelled from the spec: the body text truncated at the first occurrence
of the link text as a literal substring, kept whole when the link text does
not occur.  (The first occurrence of the empty string is at position 0.) -/
def truncAtFirst (s t : String) : String :=
  match firstOcc s.data t.data with
  | some i => String.mk (s.data.take i)
  | none => s

/-- For a non-empty separator, `strings.Split(s, sep)[0]` is exactly the
part of `s` before the first occurrence of `sep` (all of `s` when `sep`
does not occur). -/
theorem splitIndexZero_of_ne (s sep : String) (h : sep ≠ "") :
    splitIndexZero s sep = some (truncAtFirst s sep) := by
  have hd : sep.data ≠ [] := fun hh => h ((string_data_eq_nil_iff sep).mp hh)
  unfold splitIndexZero goSplit
  rw [if_neg hd]
  unfold truncAtFirst
  simp only [goSplitAux]
  cases hocc : firstOcc s.data sep.data with
  | none => simp [hocc, string_mk_data]
  | some i => simp [hocc]

/-- Claim C2 (amended): for every review block whose link-control text is
non-empty and whose date parses, the extracted message is the body text
truncated at the first occurrence of the link text as a literal substring,
and equals the full body when the link text does not occur. -/
theorem getReviewBlock_message_trunc (location : String) (b : ReviewBlock) (d : Int)
    (hdate : goTimeParseUnix (timeFormFor location) b.dateText = some d)
    (hlink : b.linkText ≠ "") :
    ∃ r, getReviewBlock location b = .emit r ∧
      r.Message = truncAtFirst b.bodyText b.linkText := by
  unfold getReviewBlock
  rw [hdate, splitIndexZero_of_ne _ _ hlink]
  exact ⟨_, rfl, rfl⟩

/-- A block whose body is `"Great app! Read more"` and whose link text is
`"Read more"` (the example in the claim). -/
def blockC2 : ReviewBlock :=
  { authorText := "bob", dateText := "May 2, 2021", permalinkHref := some "/r/2",
    titleText := "", bodyText := "Great app! Read more", linkText := "Read more",
    rateStyle := none }

/-- Witness for `getReviewBlock_message_trunc` on the claim's own example
block: the message comes out as `"Great app! "`. -/
theorem getReviewBlock_message_trunc_witness :
    goTimeParseUnix (timeFormFor "en") blockC2.dateText = some 1619913600 ∧
    blockC2.linkText ≠ "" ∧
    (∃ r, getReviewBlock "en" blockC2 = .emit r ∧
      r.Message = truncAtFirst blockC2.bodyText blockC2.linkText) ∧
    truncAtFirst "Great app! Read more" "Read more" = "Great app! " :=
  ⟨by decide, by decide,
   getReviewBlock_message_trunc "en" blockC2 1619913600 (by decide) (by decide),
   by decide⟩

/-- A block whose link text is empty and whose body has two characters. -/
def blockC2ce : ReviewBlock :=
  { authorText := "alice", dateText := "May 1, 2021", permalinkHref := some "/r/1",
    titleText := "t", bodyText := "ab", linkText := "", rateStyle := some "width: 20%" }

/-- Claim C2 counterexample: with an empty link text, `strings.Split`
explodes the body into runes, so the block with body `"ab"` emits the
message `"a"` — not the body truncated at the first occurrence of the
(empty) link text, which is the empty string. -/
theorem trunc_empty_sep_counterexample :
    getReviewBlock "en" blockC2ce =
      .emit { Author := "alice", Title := "t", Message := "a", Rate := ":star:",
              UpdatedAt := 1619827200, Permalink := "/r/1" } ∧
    truncAtFirst "ab" "" = "" ∧ ("a" : String) ≠ "" :=
  ⟨by decide, by decide, by decide⟩

/-- Claim C9 (amended): for a block whose link-control text is empty and
whose date parses, the extracted message is the FIRST character of the
body (which equals the full body exactly when the body is a single
character); when the body is also empty, the index into the empty split
slice panics and the run crashes. -/
theorem getReviewBlock_empty_link (location : String) (b : ReviewBlock) (d : Int)
    (hdate : goTimeParseUnix (timeFormFor location) b.dateText = some d)
    (hlink : b.linkText = "") :
    (b.bodyText = "" →
      getReviewBlock location b = .panicked ∧ GetReview location [b] = .error ()) ∧
    (∀ c cs, b.bodyText.data = c :: cs →
      ∃ r, getReviewBlock location b = .emit r ∧ r.Message = String.mk [c]) := by
  have hsplit : ∀ body : String, splitIndexZero body b.linkText =
      (body.data.map (fun c => String.mk [c])).head? := by
    intro body
    unfold splitIndexZero goSplit
    rw [if_pos (show b.linkText.data = [] by rw [hlink])]
  constructor
  · intro hbody
    have h1 : getReviewBlock location b = .panicked := by
      unfold getReviewBlock
      rw [hdate, hsplit, (string_data_eq_nil_iff b.bodyText).mpr hbody]
      rfl
    exact ⟨h1, by unfold GetReview; rw [h1]⟩
  · intro c cs hbody
    unfold getReviewBlock
    rw [hdate, hsplit, hbody]
    exact ⟨_, rfl, rfl⟩

/-- A block with empty link text and a single-character body. -/
def blockC9ce : ReviewBlock :=
  { authorText := "carol", dateText := "May 3, 2021", permalinkHref := none,
    titleText := "t", bodyText := "a", linkText := "", rateStyle := none }

/-- Claim C9 counterexample: with an empty link text and the
single-character body `"a"`, the extracted message IS the full body,
refuting the claim's assertion that the message is never the full body. -/
theorem single_char_body_counterexample :
    getReviewBlock "en" blockC9ce =
      .emit { Author := "carol", Title := "t", Message := "a", Rate := "",
              UpdatedAt := 1620000000, Permalink := "" } ∧
    ("a" : String) = blockC9ce.bodyText :=
  ⟨by decide, by decide⟩

/-- A block with empty link text and an empty body. -/
def blockC9w : ReviewBlock :=
  { authorText := "dan", dateText := "May 4, 2021", permalinkHref := none,
    titleText := "t", bodyText := "", linkText := "", rateStyle := none }

/-- Witness for `getReviewBlock_empty_link` at a block with empty body and
empty link text: the block panics and the run crashes. -/
theorem getReviewBlock_empty_link_witness :
    goTimeParseUnix (timeFormFor "en") blockC9w.dateText = some 1620086400 ∧
    blockC9w.linkText = "" ∧
    ((blockC9w.bodyText = "" →
        getReviewBlock "en" blockC9w = .panicked ∧
        GetReview "en" [blockC9w] = .error ()) ∧
     (∀ c cs, blockC9w.bodyText.data = c :: cs →
        ∃ r, getReviewBlock "en" blockC9w = .emit r ∧ r.Message = String.mk [c])) :=
  ⟨by decide, rfl, getReviewBlock_empty_link "en" blockC9w 1620086400 (by decide) rfl⟩

/-! ## Claim C4 (date parsing gate) -/

/-- A block with an empty date text (a block whose date sub-node is missing
yields the empty text). -/
def blockC4 : ReviewBlock :=
  { authorText := "dave", dateText := "", permalinkHref := some "/r/4",
    titleText := "", bodyText := "body", linkText := "x", rateStyle := none }

/-- Claim C4 counterexample: under the unrecognized locale `"fr"` the
selected layout is the empty string, and Go's `time.Parse("", "")`
SUCCEEDS, returning the year-0 date — so a block whose date text is empty
is not skipped: it is emitted with the garbage timestamp
0000-01-01 (Unix `-62167219200`). -/
theorem unknown_locale_emit_counterexample :
    timeFormFor "fr" = "" ∧
    getReviewBlock "fr" blockC4 =
      .emit { Author := "dave", Title := "No title provided", Message := "body",
              Rate := "", UpdatedAt := -62167219200, Permalink := "/r/4" } ∧
    GetReview "fr" [blockC4] =
      .ok [{ Author := "dave", Title := "No title provided", Message := "body",
             Rate := "", UpdatedAt := -62167219200, Permalink := "/r/4" }] :=
  ⟨by decide, by decide, by rfl⟩

/-- Claim C4 (amended): a block is skipped exactly when its date text fails
to parse under the layout selected for the locale, and an emitted review's
`UpdatedAt` is always the successfully parsed date; skipped blocks are
absent from the output and leave the rest untouched.  However, an
unrecognized locale selects the EMPTY layout, under which exactly the
empty date text parses — to the garbage year-0 timestamp — so such blocks
are emitted rather than skipped. -/
theorem getReviewBlock_date_gate (location : String) (b : ReviewBlock) :
    (getReviewBlock location b = .skip ↔
      goTimeParseUnix (timeFormFor location) b.dateText = none) ∧
    (∀ r, getReviewBlock location b = .emit r →
      goTimeParseUnix (timeFormFor location) b.dateText = some r.UpdatedAt) ∧
    (goTimeParseUnix (timeFormFor location) b.dateText = none →
      ∀ bs, GetReview location (b :: bs) = GetReview location bs) ∧
    (location ≠ "zh-tw" → location ≠ "en" →
      goTimeParseUnix (timeFormFor location) b.dateText =
        (if b.dateText = "" then some (-62167219200) else none)) := by
  refine ⟨?_, ?_, ?_, ?_⟩
  · unfold getReviewBlock
    cases hp : goTimeParseUnix (timeFormFor location) b.dateText with
    | none => simp
    | some d =>
      simp only [iff_false_intro (Option.some_ne_none d), iff_false]
      cases hs : splitIndexZero b.bodyText b.linkText <;> simp
  · intro r
    unfold getReviewBlock
    cases hp : goTimeParseUnix (timeFormFor location) b.dateText with
    | none => intro h; cases h
    | some d =>
      cases hs : splitIndexZero b.bodyText b.linkText with
      | none => intro h; cases h
      | some m =>
        intro h
        cases h
        rfl
  · intro hp bs
    have hskip : getReviewBlock location b = .skip := by
      unfold getReviewBlock
      rw [hp]
    conv_lhs => rw [GetReview]
    rw [hskip]
  · intro h1 h2
    have hform : timeFormFor location = "" := by
      unfold timeFormFor
      rw [if_neg h1, if_neg h2]
    rw [hform]
    unfold goTimeParseUnix goTimeParseYMD
    rw [if_neg (by decide), if_neg (by decide), if_pos rfl]
    by_cases hbd : b.dateText = ""
    · rw [if_pos hbd, if_pos hbd]
      decide
    · rw [if_neg hbd, if_neg hbd]
      rfl

/-- A block whose date text parses under no recognized layout. -/
def blockC4w : ReviewBlock :=
  { authorText := "eve", dateText := "not a date", permalinkHref := none,
    titleText := "t", bodyText := "b", linkText := "l", rateStyle := none }

/-- Witness for `getReviewBlock_date_gate`: under locale `"en"` a block
with unparseable date text is skipped and contributes nothing to the
output. -/
theorem getReviewBlock_date_gate_witness :
    goTimeParseUnix (timeFormFor "en") blockC4w.dateText = none ∧
    getReviewBlock "en" blockC4w = .skip ∧
    GetReview "en" [blockC4w] = .ok [] :=
  ⟨by decide,
   ((getReviewBlock_date_gate "en" blockC4w).1).mpr (by decide),
   ((getReviewBlock_date_gate "en" blockC4w).2.2.1 (by decide) []).trans rfl⟩

/-! ## Claim C5 (ordering by recency) -/

/-- Claim C5: for any input list of reviews with pairwise distinct
`UpdatedAt` values — hence for every permutation of such a set — the
ordering step returns a permutation of the input that is strictly
descending by `UpdatedAt` (most recent first). -/
theorem sortReviews_strict_desc (rs : List Review)
    (hnd : (rs.map Review.UpdatedAt).Nodup) :
    (sortReviews rs).Perm rs ∧
    (sortReviews rs).Pairwise (fun a b => b.UpdatedAt < a.UpdatedAt) := by
  have hperm : (sortReviews rs).Perm rs := List.perm_insertionSort reviewGE rs
  refine ⟨hperm, ?_⟩
  have hsorted : (sortReviews rs).Pairwise reviewGE :=
    List.sorted_insertionSort reviewGE rs
  have hnd' : ((sortReviews rs).map Review.UpdatedAt).Nodup :=
    ((hperm.map Review.UpdatedAt).nodup_iff).mpr hnd
  have hne : (sortReviews rs).Pairwise (fun a b => a.UpdatedAt ≠ b.UpdatedAt) :=
    List.pairwise_map.mp hnd'
  exact (hsorted.and hne).imp (fun h => lt_of_le_of_ne h.1 h.2.symm)

/-- Three concrete reviews in neither ascending nor descending order. -/
def revsC5 : List Review :=
  [sampleReview 10 "/r/a", sampleReview 30 "/r/b", sampleReview 20 "/r/c"]

/-- Witness for `sortReviews_strict_desc` at three concrete reviews. -/
theorem sortReviews_strict_desc_witness :
    (revsC5.map Review.UpdatedAt).Nodup ∧
    ((sortReviews revsC5).Perm revsC5 ∧
     (sortReviews revsC5).Pairwise (fun a b => b.UpdatedAt < a.UpdatedAt)) :=
  ⟨by decide, sortReviews_strict_desc revsC5 (by decide)⟩

/-! ## Dedup-store lemmas (shared by claims C1, C7, C10) -/

theorem lookupStore_eq_none_iff (store : List StoreRec) (p : String) :
    lookupStore store p = none ↔ ∀ rec ∈ store, rec.comment_uri ≠ p := by
  simp [lookupStore, List.find?_eq_none]

theorem lookupStore_append (s₁ s₂ : List StoreRec) (p : String) :
    lookupStore (s₁ ++ s₂) p = (lookupStore s₁ p).or (lookupStore s₂ p) := by
  simp [lookupStore, List.find?_append]

theorem lookupStore_append_none_iff (s₁ s₂ : List StoreRec) (p : String) :
    lookupStore (s₁ ++ s₂) p = none ↔
      lookupStore s₁ p = none ∧ lookupStore s₂ p = none := by
  simp [lookupStore_eq_none_iff, List.mem_append, or_imp, forall_and]

theorem lookupStore_single_identRec (r : Review) :
    lookupStore [identRec r] r.Permalink = some (identRec r) := by
  simp [lookupStore, List.find?, identRec]

/-- With no injected failures, `SaveReviewsDB` returns `ok` with some
output list; the store grows by exactly the identity records of that
output, every output review was absent from the incoming store, and the
output's permalinks are pairwise distinct. -/
theorem SaveReviewsDB_ok_spec (k : Nat) (store : List StoreRec) (rs : List Review) :
    ∃ out : List Review,
      SaveReviewsDB (fun _ => false) (fun _ => false) k store rs =
        (store ++ out.map identRec, .ok out) ∧
      (∀ x ∈ out, lookupStore store x.Permalink = none) ∧
      (out.map Review.Permalink).Nodup := by
  induction rs generalizing k store with
  | nil => exact ⟨[], by simp [SaveReviewsDB], by simp, by simp⟩
  | cons r rest ih =>
    cases hl : lookupStore store r.Permalink with
    | some w =>
      obtain ⟨out, heq, habs, hnd⟩ := ih (k + 1) store
      exact ⟨out, by simp [SaveReviewsDB, hl, heq], habs, hnd⟩
    | none =>
      obtain ⟨out, heq, habs, hnd⟩ := ih (k + 1) (store ++ [identRec r])
      refine ⟨r :: out, ?_, ?_, ?_⟩
      · simp [SaveReviewsDB, hl, heq, List.append_assoc]
      · intro x hx
        rcases List.mem_cons.mp hx with rfl | hx'
        · exact hl
        · exact ((lookupStore_append_none_iff _ _ _).mp (habs x hx')).1
      · rw [List.map_cons, List.nodup_cons]
        refine ⟨?_, hnd⟩
        intro hmem
        obtain ⟨x, hx, hxp⟩ := List.mem_map.mp hmem
        have hnone := ((lookupStore_append_none_iff _ _ _).mp (habs x hx)).2
        rw [lookupStore_eq_none_iff] at hnone
        exact hnone (identRec r) (List.mem_singleton_self _) (by simp [identRec, hxp])

/-- If every candidate's permalink is already present, nothing is returned
and the store is unchanged. -/
theorem SaveReviewsDB_all_found (k : Nat) (store : List StoreRec) (rs : List Review)
    (h : ∀ r ∈ rs, (lookupStore store r.Permalink).isSome) :
    SaveReviewsDB (fun _ => false) (fun _ => false) k store rs = (store, .ok []) := by
  induction rs generalizing k with
  | nil => simp [SaveReviewsDB]
  | cons r rest ih =>
    have hr := h r (List.mem_cons_self r rest)
    cases hl : lookupStore store r.Permalink with
    | none => rw [hl] at hr; simp at hr
    | some w =>
      simp [SaveReviewsDB, hl, ih (k + 1) (fun x hx => h x (List.mem_cons_of_mem _ hx))]

/-- If no candidate's permalink is in the store and the candidates'
permalinks are pairwise distinct, all of them come back, in order, and
their identity records are all persisted. -/
theorem SaveReviewsDB_all_new (k : Nat) (store : List StoreRec) (rs : List Review)
    (h0 : ∀ r ∈ rs, lookupStore store r.Permalink = none)
    (hnd : (rs.map Review.Permalink).Nodup) :
    SaveReviewsDB (fun _ => false) (fun _ => false) k store rs =
      (store ++ rs.map identRec, .ok rs) := by
  induction rs generalizing k store with
  | nil => simp [SaveReviewsDB]
  | cons r rest ih =>
    have hl : lookupStore store r.Permalink = none := h0 r (List.mem_cons_self r rest)
    rw [List.map_cons, List.nodup_cons] at hnd
    have hrec : SaveReviewsDB (fun _ => false) (fun _ => false) (k + 1)
        (store ++ [identRec r]) rest =
        ((store ++ [identRec r]) ++ rest.map identRec, .ok rest) := by
      apply ih
      · intro x hx
        rw [lookupStore_append_none_iff]
        refine ⟨h0 x (List.mem_cons_of_mem _ hx), ?_⟩
        rw [lookupStore_eq_none_iff]
        intro rec hrec hcp
        rw [List.mem_singleton] at hrec
        subst hrec
        exact hnd.1 (List.mem_map.mpr ⟨x, hx, by simpa [identRec] using hcp.symm⟩)
      · exact hnd.2
    simp [SaveReviewsDB, hl, hrec, List.append_assoc]

/-- Membership of a review in a list makes its identity record findable. -/
theorem lookupStore_map_identRec_isSome {rs : List Review} {r : Review} (hr : r ∈ rs) :
    (lookupStore (rs.map identRec) r.Permalink).isSome = true := by
  induction rs with
  | nil => cases hr
  | cons a rest ih =>
    rw [List.map_cons]
    cases hb : (identRec a).comment_uri == r.Permalink with
    | true => simp [lookupStore, List.find?, hb]
    | false =>
      have hne : a ≠ r := by
        intro hae
        subst hae
        simp [identRec] at hb
      rcases List.mem_cons.mp hr with rfl | hr'
      · exact absurd rfl hne
      · simpa [lookupStore, List.find?, hb] using ih hr'

/-! ## Claim C1 (dedup pass run twice) -/

/-- Claim C1 (amended): for an input sequence whose permalinks are pairwise
distinct and none of which is in the store, the first `SaveReviews` call
returns the full input in order and persists the identity record
`{author, permalink, updatedAt}` of every input review, and a second call
with the identical input returns the empty sequence, leaving the store
unchanged. -/
theorem SaveReviews_twice (store : List StoreRec) (rs : List Review)
    (h0 : ∀ r ∈ rs, lookupStore store r.Permalink = none)
    (hnd : (rs.map Review.Permalink).Nodup) :
    SaveReviews store rs = (store ++ rs.map identRec, .ok rs) ∧
    SaveReviews (store ++ rs.map identRec) rs = (store ++ rs.map identRec, .ok []) := by
  constructor
  · exact SaveReviewsDB_all_new 0 store rs h0 hnd
  · apply SaveReviewsDB_all_found
    intro r hr
    rw [lookupStore_append]
    cases hfst : lookupStore store r.Permalink with
    | some w => simp [Option.or]
    | none =>
      simpa [Option.or] using lookupStore_map_identRec_isSome hr

/-- A concrete review for the duplicate-input counterexample. -/
def reviewC1 : Review := sampleReview 100 "/r/dup"

/-- Claim C1 counterexample: an input sequence that repeats one permalink
is NOT returned in full by the first call on a fresh store — the second
occurrence is suppressed within the same pass — refuting the claim for
arbitrary input sequences. -/
theorem SaveReviews_dup_input_counterexample :
    SaveReviews [] [reviewC1, reviewC1] = ([identRec reviewC1], .ok [reviewC1]) ∧
    [reviewC1] ≠ [reviewC1, reviewC1] :=
  ⟨by rfl, by decide⟩

/-- Two concrete reviews with fresh distinct permalinks. -/
def revsC1 : List Review := [sampleReview 2 "/r/1", sampleReview 1 "/r/2"]

/-- Witness for `SaveReviews_twice` on a fresh store and two distinct
reviews. -/
theorem SaveReviews_twice_witness :
    (∀ r ∈ revsC1, lookupStore [] r.Permalink = none) ∧
    (revsC1.map Review.Permalink).Nodup ∧
    (SaveReviews [] revsC1 = ([] ++ revsC1.map identRec, .ok revsC1) ∧
     SaveReviews ([] ++ revsC1.map identRec) revsC1 =
       ([] ++ revsC1.map identRec, .ok [])) :=
  ⟨by decide, by decide, SaveReviews_twice [] revsC1 (by decide) (by decide)⟩

/-! ## Claim C10 (at most one record per permalink) -/

/-- The store holds at most one identity record per permalink. -/
@[reducible] def storeNodup (store : List StoreRec) : Prop :=
  (store.map StoreRec.comment_uri).Nodup

/-- Claim C10: a failure-free `SaveReviews` pass preserves the at-most-one-
record-per-permalink store invariant, and when the input itself repeats a
permalink that is not yet stored, only the first occurrence is inserted
and returned — the later duplicate is suppressed within the same pass. -/
theorem SaveReviews_unique_permalink (store : List StoreRec) (rs : List Review)
    (hs : storeNodup store) (r r' : Review) (hperm : r'.Permalink = r.Permalink)
    (hnew : lookupStore store r.Permalink = none) :
    storeNodup (SaveReviews store rs).1 ∧
    SaveReviews store [r, r'] = (store ++ [identRec r], .ok [r]) := by
  constructor
  · obtain ⟨out, heq, habs, hnd⟩ := SaveReviewsDB_ok_spec 0 store rs
    rw [SaveReviews, heq]
    show ((store ++ out.map identRec).map StoreRec.comment_uri).Nodup
    rw [List.map_append, List.nodup_append]
    refine ⟨hs, ?_, ?_⟩
    · rw [List.map_map]
      have : (StoreRec.comment_uri ∘ identRec) = Review.Permalink := by
        funext x
        simp [identRec]
      rw [this]
      exact hnd
    · intro a ha hb
      rw [List.map_map] at hb
      obtain ⟨x, hx, hxa⟩ := List.mem_map.mp hb
      have hnone := habs x hx
      rw [lookupStore_eq_none_iff] at hnone
      obtain ⟨rec, hrec, hra⟩ := List.mem_map.mp ha
      exact hnone rec hrec (by simp [identRec] at hxa; rw [hra, ← hxa])
  · have hsnd : lookupStore (store ++ [identRec r]) r'.Permalink =
        some (identRec r) := by
      rw [hperm, lookupStore_append, hnew, lookupStore_single_identRec]
      rfl
    simp [SaveReviews, SaveReviewsDB, hnew, hsnd]

/-- A concrete store row distinct from the sample reviews. -/
def storeRowC10 : StoreRec := { author := "old", comment_uri := "/r/old", updated_at := 1 }

/-- Two concrete reviews sharing a permalink. -/
def rC10 : Review := sampleReview 100 "/r/same"

/-- The second review with the same permalink. -/
def rC10' : Review := sampleReview 90 "/r/same"

/-- Witness for `SaveReviews_unique_permalink` at a one-row store and a
duplicate-permalink input pair. -/
theorem SaveReviews_unique_permalink_witness :
    storeNodup [storeRowC10] ∧ rC10'.Permalink = rC10.Permalink ∧
    lookupStore [storeRowC10] rC10.Permalink = none ∧
    (storeNodup (SaveReviews [storeRowC10] [rC10, rC10']).1 ∧
     SaveReviews [storeRowC10] [rC10, rC10'] =
       ([storeRowC10] ++ [identRec rC10], .ok [rC10])) :=
  ⟨by decide, by decide, by decide,
   SaveReviews_unique_permalink [storeRowC10] [rC10, rC10'] (by decide)
     rC10 rC10' (by decide) (by decide)⟩

/-! ## Claim C7 (mid-pass failure: abort, no rollback) -/

/-- Processing an appended candidate list after a successful prefix run
continues from the prefix's final store, with the outputs concatenated and
any error propagated unchanged. -/
theorem SaveReviewsDB_append_ok (lerr ierr : Nat → Bool) (k : Nat)
    (store s₁ : List StoreRec) (pre rest : List Review) (out₁ : List Review)
    (h : SaveReviewsDB lerr ierr k store pre = (s₁, .ok out₁)) :
    SaveReviewsDB lerr ierr k store (pre ++ rest) =
      ((SaveReviewsDB lerr ierr (k + pre.length) s₁ rest).1,
       Except.map (fun out₂ => out₁ ++ out₂)
         (SaveReviewsDB lerr ierr (k + pre.length) s₁ rest).2) := by
  induction pre generalizing k store out₁ with
  | nil =>
    have h' : store = s₁ ∧ out₁ = [] := by
      have := h
      simp only [SaveReviewsDB, Prod.mk.injEq] at this
      exact ⟨this.1, (Except.ok.inj this.2).symm⟩
    obtain ⟨rfl, rfl⟩ := h'
    simp only [List.nil_append, List.length_nil, Nat.add_zero]
    cases hx : SaveReviewsDB lerr ierr k store rest with
    | mk s₂ e₂ => cases e₂ <;> rfl
  | cons r pre' ih =>
    by_cases hkl : lerr k
    · rw [show SaveReviewsDB lerr ierr k store (r :: pre') = (store, .error ())
            from by simp [SaveReviewsDB, hkl]] at h
      exact absurd (Prod.mk.inj h).2 (by simp)
    · cases hl : lookupStore store r.Permalink with
      | some w =>
        rw [show SaveReviewsDB lerr ierr k store (r :: pre') =
              SaveReviewsDB lerr ierr (k + 1) store pre'
            from by simp [SaveReviewsDB, hkl, hl]] at h
        have := ih (k + 1) store out₁ h
        rw [List.cons_append,
          show SaveReviewsDB lerr ierr k store (r :: (pre' ++ rest)) =
            SaveReviewsDB lerr ierr (k + 1) store (pre' ++ rest)
          from by simp [SaveReviewsDB, hkl, hl], this]
        have harith : k + 1 + pre'.length = k + (r :: pre').length := by
          simp [List.length_cons]
          omega
        rw [harith]
      | none =>
        by_cases hie : ierr k
        · rw [show SaveReviewsDB lerr ierr k store (r :: pre') = (store, .error ())
                from by simp [SaveReviewsDB, hkl, hl, hie]] at h
          exact absurd (Prod.mk.inj h).2 (by simp)
        · cases hin : SaveReviewsDB lerr ierr (k + 1) (store ++ [identRec r]) pre' with
          | mk s' e' =>
            cases e' with
            | error e =>
              rw [show SaveReviewsDB lerr ierr k store (r :: pre') = (s', .error e)
                    from by simp [SaveReviewsDB, hkl, hl, hie, hin]] at h
              exact absurd (Prod.mk.inj h).2 (by simp)
            | ok o =>
              rw [show SaveReviewsDB lerr ierr k store (r :: pre') = (s', .ok (r :: o))
                    from by simp [SaveReviewsDB, hkl, hl, hie, hin]] at h
              obtain ⟨hs, ho⟩ := Prod.mk.inj h
              have ho' : out₁ = r :: o := (Except.ok.inj ho).symm
              subst hs
              subst ho'
              have hrec := ih (k + 1) (store ++ [identRec r]) o hin
              have harith : k + 1 + pre'.length = k + (r :: pre').length := by
                simp [List.length_cons]
                omega
              rw [harith] at hrec
              rw [List.cons_append,
                show SaveReviewsDB lerr ierr k store (r :: (pre' ++ rest)) =
                  (match SaveReviewsDB lerr ierr (k + 1) (store ++ [identRec r])
                      (pre' ++ rest) with
                   | (store', .ok out) => (store', .ok (r :: out))
                   | (store', .error e) => (store', .error e))
                from by simp [SaveReviewsDB, hkl, hl, hie], hrec]
              cases hz : SaveReviewsDB lerr ierr (k + (r :: pre').length) s' rest with
              | mk s₂ e₂ => cases e₂ <;> rfl

/-- The incoming store is always an initial segment of the store a
(possibly failing) `SaveReviewsDB` run leaves behind: nothing is rolled
back. -/
theorem SaveReviewsDB_store_extends (lerr ierr : Nat → Bool) (k : Nat)
    (store : List StoreRec) (rs : List Review) :
    ∃ t, (SaveReviewsDB lerr ierr k store rs).1 = store ++ t := by
  induction rs generalizing k store with
  | nil => exact ⟨[], by simp [SaveReviewsDB]⟩
  | cons r rest ih =>
    by_cases hkl : lerr k
    · exact ⟨[], by simp [SaveReviewsDB, hkl]⟩
    · cases hl : lookupStore store r.Permalink with
      | some w =>
        obtain ⟨t, ht⟩ := ih (k + 1) store
        exact ⟨t, by simp [SaveReviewsDB, hkl, hl, ht]⟩
      | none =>
        by_cases hie : ierr k
        · exact ⟨[], by simp [SaveReviewsDB, hkl, hl, hie]⟩
        · obtain ⟨t, ht⟩ := ih (k + 1) (store ++ [identRec r])
          refine ⟨[identRec r] ++ t, ?_⟩
          cases hin : SaveReviewsDB lerr ierr (k + 1) (store ++ [identRec r]) rest with
          | mk s' e' =>
            rw [hin] at ht
            cases e' <;>
              simpa [SaveReviewsDB, hkl, hl, hie, hin, List.append_assoc] using ht

/-- Claim C7: if, after a clean prefix, the lookup for the next candidate
fails — or its lookup misses and its insert fails — the whole
`SaveReviews` call aborts with the propagated error without touching the
remaining candidates, and the identity records inserted for the earlier
candidates stay in the store on top of its original contents. -/
theorem SaveReviews_abort_propagates (lerr ierr : Nat → Bool)
    (store : List StoreRec) (pre : List Review) (r : Review) (rest : List Review)
    (s₁ : List StoreRec) (out₁ : List Review)
    (hpre : SaveReviewsDB lerr ierr 0 store pre = (s₁, .ok out₁))
    (hfail : lerr pre.length = true ∨
      (lerr pre.length = false ∧ lookupStore s₁ r.Permalink = none ∧
       ierr pre.length = true)) :
    SaveReviewsDB lerr ierr 0 store (pre ++ r :: rest) = (s₁, .error ()) ∧
    ∃ t, s₁ = store ++ t := by
  have happ := SaveReviewsDB_append_ok lerr ierr 0 store s₁ pre (r :: rest) out₁ hpre
  have hhead : SaveReviewsDB lerr ierr (0 + pre.length) s₁ (r :: rest) =
      (s₁, .error ()) := by
    rw [Nat.zero_add]
    rcases hfail with hf | ⟨hf, hl, hi⟩
    · simp [SaveReviewsDB, hf]
    · simp [SaveReviewsDB, hf, hl, hi]
  constructor
  · rw [happ, hhead]
    rfl
  · obtain ⟨t, ht⟩ := SaveReviewsDB_store_extends lerr ierr 0 store pre
    rw [hpre] at ht
    exact ⟨t, ht⟩

/-- Concrete candidates for the abort witness. -/
def rC7a : Review := sampleReview 5 "/r/a"

/-- The candidate whose insert fails. -/
def rC7b : Review := sampleReview 4 "/r/b"

/-- Witness for `SaveReviews_abort_propagates`: the insert of the second
candidate fails; the call returns the error while the first candidate's
record remains persisted. -/
theorem SaveReviews_abort_propagates_witness :
    SaveReviewsDB (fun _ => false) (fun j => j == 1) 0 [] [rC7a] =
      ([identRec rC7a], .ok [rC7a]) ∧
    ((fun _ => false : Nat → Bool) [rC7a].length = false ∧
     lookupStore [identRec rC7a] rC7b.Permalink = none ∧
     (fun j => j == 1 : Nat → Bool) [rC7a].length = true) ∧
    (SaveReviewsDB (fun _ => false) (fun j => j == 1) 0 [] ([rC7a] ++ rC7b :: []) =
       ([identRec rC7a], .error ()) ∧
     ∃ t, [identRec rC7a] = [] ++ t) :=
  ⟨by rfl, ⟨by decide, by decide, by decide⟩,
   SaveReviews_abort_propagates (fun _ => false) (fun j => j == 1) [] [rC7a] rC7b []
     [identRec rC7a] [rC7a] (by rfl) (Or.inr ⟨by decide, by decide, by decide⟩)⟩

end JonSnow
